import Mathlib

/-!
Verification development for the MolHGCN repository.

The development shallowly embeds the two source files:
- molhgcn/hypergraphnetwork/Networks.py: the Net module constructor (the
  arguments of every MLP sub-network it builds) and the structure of
  Net.forward (encoders, message passing, readout, regressor) inside a
  DGL local_scope.
- cleanedup_regression_node.py: the data-file selection, the loss
  computation, the training loop (modelled as an event trace per epoch
  and batch), and the top-level script that repeats the pipeline.

Components of the repository whose source files are not available
(the MLP class body, HyperMPNN, WeightedSumAndMax, the torch and DGL
runtimes) are modelled from the specification where a claim needs their
behaviour; each such definition carries a doc comment saying so.
Real-valued tensors are modelled over the rationals.
-/

namespace MolHGCN

/-- Activation function tag passed to the MLP constructor.  The network
code selects activations by name; only the two names that occur in
Networks.py are modelled. -/
inductive Activation where
  | LeakyReLU
  | Identity
deriving DecidableEq, Repr

/-- Arguments of one call of the MLP constructor as written in
Networks.py: input dimension, output dimension, the hidden layer widths
(num_neurons), the hidden activation, the dropout probability and the
input normalization mode. -/
structure MLPArgs where
  inDim : Nat
  outDim : Nat
  numNeurons : List Nat
  hiddenAct : Activation
  dropoutProb : ℚ
  inputNorm : String
deriving DecidableEq, Repr

/-- Arguments of the regressor MLP call in Net.__init__.  That call only
passes input dimension, output dimension and dropout probability (the
remaining MLP parameters are left at their defaults, whose values live in
the MLP class body, not in Networks.py). -/
structure RegArgs where
  inDim : Nat
  outDim : Nat
  dropoutProb : ℚ
deriving DecidableEq, Repr

/-- Constructor parameters of Net (Networks.py, Net.__init__). -/
structure NetParams where
  outDim : Nat
  nodeInDim : Nat
  edgeInDim : Nat
  fgInDim : Nat
  numNeurons : List Nat
  inputNorm : String
  nefDp : ℚ
  regDp : ℚ
  nodeHiddenDim : Nat
  edgeHiddenDim : Nat
  fgHiddenDim : Nat
  activation : Activation
deriving DecidableEq, Repr

/-- The sub-modules Net.__init__ builds: three linear encoders (recorded
as input/output dimension pairs), the regressor, and the six MLPs handed
to HyperMPNN (node update nm, edge update em, atom gate am, membership
edge update fem, functional-group node update fnm, functional-group gate
fam). -/
structure NetModules where
  nodeEncoder : Nat × Nat
  edgeEncoder : Nat × Nat
  fgEncoder : Nat × Nat
  reg : RegArgs
  nm : MLPArgs
  em : MLPArgs
  am : MLPArgs
  fem : MLPArgs
  fnm : MLPArgs
  fam : MLPArgs
deriving DecidableEq, Repr

/-- Embedding of Net.__init__ (Networks.py): each field records the
constructor arguments exactly as the python source writes them. -/
def Net.build (p : NetParams) : NetModules :=
  { nodeEncoder := (p.nodeInDim, p.nodeHiddenDim)
    edgeEncoder := (p.edgeInDim, p.edgeHiddenDim)
    fgEncoder := (p.fgInDim, p.fgHiddenDim)
    reg := { inDim := 2 * (p.nodeHiddenDim + p.fgHiddenDim)
             outDim := p.outDim
             dropoutProb := p.regDp }
    nm := { inDim := p.nodeHiddenDim + p.edgeHiddenDim
            outDim := p.nodeHiddenDim
            numNeurons := p.numNeurons
            hiddenAct := p.activation
            dropoutProb := p.nefDp
            inputNorm := p.inputNorm }
    em := { inDim := p.nodeHiddenDim * 2 + p.edgeHiddenDim
            outDim := p.edgeHiddenDim
            numNeurons := p.numNeurons
            hiddenAct := p.activation
            dropoutProb := p.nefDp
            inputNorm := p.inputNorm }
    am := { inDim := p.nodeHiddenDim * 2 + p.edgeHiddenDim
            outDim := 1
            numNeurons := p.numNeurons
            hiddenAct := Activation.Identity
            dropoutProb := p.nefDp
            inputNorm := p.inputNorm }
    fem := { inDim := 2 * (p.nodeHiddenDim + p.fgHiddenDim)
             outDim := p.fgHiddenDim
             numNeurons := p.numNeurons
             hiddenAct := p.activation
             dropoutProb := p.nefDp
             inputNorm := p.inputNorm }
    fnm := { inDim := p.fgHiddenDim * 2 + p.nodeHiddenDim
             outDim := p.fgHiddenDim
             numNeurons := p.numNeurons
             hiddenAct := p.activation
             dropoutProb := p.nefDp
             inputNorm := p.inputNorm }
    fam := { inDim := 2 * (p.nodeHiddenDim + p.fgHiddenDim)
             outDim := p.fgHiddenDim
             numNeurons := p.numNeurons
             hiddenAct := Activation.Identity
             dropoutProb := p.nefDp
             inputNorm := p.inputNorm } }

/-- The three graph files (train, validation, test) the training script
loads for one run. -/
structure SplitPaths where
  trainFile : String
  valFile : String
  testFile : String
deriving DecidableEq, Repr

/-- Embedding of the data-file selection in cleanedup_regression_node.py,
main: the nested conditionals on fg_cyc and init_feat choose the three
file names passed to load_graphs, with the dataset name formatted in. -/
def graphFiles (ds : String) (initFeat fgCyc : Bool) : SplitPaths :=
  if fgCyc then
    if initFeat then
      { trainFile := "data/" ++ ds ++ "_train.bin"
        valFile := "data/" ++ ds ++ "_val.bin"
        testFile := "data/" ++ ds ++ "_test.bin" }
    else
      { trainFile := "data/noinit_" ++ ds ++ "_train.bin"
        valFile := "data/noinit_" ++ ds ++ "_val.bin"
        testFile := "data/noinit_" ++ ds ++ "_test.bin" }
  else
    if initFeat then
      { trainFile := "data_nocyc/nocyc_" ++ ds ++ "_train.bin"
        valFile := "data_nocyc/nocyc_" ++ ds ++ "_val.bin"
        testFile := "data_nocyc/nocyc_" ++ ds ++ "_test.bin" }
    else
      { trainFile := "data_nocyc/nocyc_noinit_" ++ ds ++ "_train.bin"
        valFile := "data_nocyc/nocyc_noinit_" ++ ds ++ "_val.bin"
        testFile := "data_nocyc/nocyc_noinit_" ++ ds ++ "_test.bin" }

/-- Semantics of torch.nn.MSELoss with reduction set to none (torch is an
external collaborator): the elementwise squared difference of two
tensors, modelled here on two-dimensional tensors as lists of rows. -/
def mseLossNone (logits labels : List (List ℚ)) : List (List ℚ) :=
  List.zipWith (fun r s => List.zipWith (fun a b => (a - b) * (a - b)) r s) logits labels

/-- Semantics of the mean method of a torch tensor (external
collaborator): the arithmetic mean over all elements, here computed from
per-row sums and per-row lengths. -/
def tensorMean (t : List (List ℚ)) : ℚ :=
  (t.map List.sum).sum / ((t.map List.length).sum : ℚ)

/-- Embedding of the loss computed in the training loop of
cleanedup_regression_node.py: criterion(logits, labels).mean() with
criterion = MSELoss(reduction = none). -/
def trainLoss (logits labels : List (List ℚ)) : ℚ :=
  tensorMean (mseLossNone logits labels)

/-- Written from the words of the specification: the mean over all
elements of the raw (unreduced) per-element squared error between
predictions and labels, computed directly on the flat list of paired
elements. -/
def rawSquaredErrorMean (logits labels : List (List ℚ)) : ℚ :=
  let errs := ((logits.zip labels).map
    (fun p => (p.1.zip p.2).map (fun q => (q.1 - q.2) * (q.1 - q.2)))).flatten
  errs.sum / (errs.length : ℚ)

/-- Modelled from the spec: the weighted-sum half of the
WeightedSumAndMax readout (its source file,
molhgcn/hypergraphnetwork/readout.py, is not under src).  For one graph,
each node of the given type carries a learned scalar weight; component j
of the result is the weight-scaled sum of component j over the nodes. -/
def weightedSumPool (dim : Nat) (weights : List ℚ) (nodes : List (List ℚ)) : List ℚ :=
  (List.range dim).map
    (fun j => ((weights.zip nodes).map (fun p => p.1 * p.2.getD j 0)).sum)

/-- Modelled from the spec: the elementwise-max half of the
WeightedSumAndMax readout; component j of the result is the maximum of
component j over the nodes of the given type (zero when the graph has no
node of that type). -/
def maxPool (dim : Nat) (nodes : List (List ℚ)) : List ℚ :=
  (List.range dim).map (fun j => (nodes.map (fun v => v.getD j 0)).foldr max 0)

/-- Modelled from the spec: the WeightedSumAndMax readout concatenates
the weighted-sum vector and the elementwise-max vector over the nodes of
one type. -/
def weightedSumAndMax (dim : Nat) (weights : List ℚ) (nodes : List (List ℚ)) : List ℚ :=
  weightedSumPool dim weights nodes ++ maxPool dim nodes

/-- Embedding of the readout concatenation in Net.forward (Networks.py):
the atom readout over the hidden atom embeddings is concatenated with
the functional-group readout over the hidden functional-group
embeddings, and the result is handed to the regressor. -/
def Net.readoutVec (p : NetParams) (atomWeights fgWeights : List ℚ)
    (atomEmb fgEmb : List (List ℚ)) : List ℚ :=
  weightedSumAndMax p.nodeHiddenDim atomWeights atomEmb ++
    weightedSumAndMax p.fgHiddenDim fgWeights fgEmb

/-- The feature frames of the heterogeneous graph (DGL graph store,
external collaborator): named data tensors for atom nodes, for
functional-group nodes and for the atom-atom edges, as association
lists from field name to tensor. -/
structure HGraph where
  atomFrame : List (String × List (List ℚ))
  fgFrame : List (String × List (List ℚ))
  edgeFrame : List (String × List (List ℚ))
deriving DecidableEq, Repr

/-- Semantics of the DGL local_scope context manager (external
collaborator): the body runs on the graph, and on exit every feature
frame is restored to the value it had on entry, so frame writes made
inside the scope are discarded. -/
def localScope {α : Type} (g : HGraph) (body : HGraph → HGraph × α) : HGraph × α :=
  let r := body g
  ({ atomFrame := g.atomFrame, fgFrame := g.fgFrame, edgeFrame := g.edgeFrame }, r.2)

/-- Writing one named tensor into a feature frame. -/
def writeFrame (frame : List (String × List (List ℚ))) (key : String)
    (val : List (List ℚ)) : List (String × List (List ℚ)) :=
  (key, val) :: frame

/-- Embedding of Net.forward (Networks.py), parameterized over the
learned components (the three encoders, the HyperMPNN layer gnn_l, the
two readout functions and the regressor, whose weights and bodies live
outside this file).  Inside a local scope it encodes the raw features,
runs message passing, writes the updated embeddings into the graph data
under the key h for both node types, computes the two readouts,
concatenates them and applies the regressor; it returns the graph as
seen by the caller afterwards together with the prediction. -/
def Net.forward
    (nodeEnc edgeEnc fgEnc : List (List ℚ) → List (List ℚ))
    (gnn : HGraph → List (List ℚ) → List (List ℚ) → List (List ℚ) →
      List (List ℚ) × List (List ℚ) × List (List ℚ))
    (nodeReadout fgReadout : HGraph → List (List ℚ) → List ℚ)
    (reg : List ℚ → List ℚ)
    (g : HGraph) (nf ef ff : List (List ℚ)) : HGraph × List ℚ :=
  localScope g (fun g0 =>
    let unf := nodeEnc nf
    let uef := edgeEnc ef
    let uff := fgEnc ff
    let upd := gnn g0 unf uef uff
    let unf2 := upd.1
    let uff2 := upd.2.2
    let g1 := { g0 with atomFrame := writeFrame g0.atomFrame "h" unf2 }
    let g2 := { g1 with fgFrame := writeFrame g1.fgFrame "h" uff2 }
    let nodeRead := nodeReadout g2 unf2
    let fgRead := fgReadout g2 uff2
    (g2, reg (nodeRead ++ fgRead)))

/-- Observable events of one training run of cleanedup_regression_node.py,
indexed by epoch e and batch index i within the epoch where applicable:
forward pass with loss computation, zeroing of gradients, backward pass,
optimizer step, scheduler step carrying the fractional epoch argument,
no-gradient evaluation over validation and test sets, emission of a log
mapping carrying the listed metric keys, and checkpoint persistence of
the model state. -/
inductive Ev where
  | forwardPass (e i : Nat)
  | zeroGrad (e i : Nat)
  | backwardPass (e i : Nat)
  | optStep (e i : Nat)
  | schedStep (t : ℚ)
  | evalStep (e i : Nat)
  | logStep (keys : List String)
  | saveModel (e i : Nat)
deriving DecidableEq, Repr

/-- The loop parameters of one run: the epoch count, the number of
batches per epoch (iters = len(train_dl)), the logging period log_every
and the scheduler restart period T_0. -/
structure TrainCfg where
  epochs : Nat
  iters : Nat
  logEvery : Nat
  T0 : Nat
deriving DecidableEq, Repr

/-- Embedding of one iteration of the inner batch loop in main
(cleanedup_regression_node.py).  nUpd is the value of n_update when the
iteration starts; the source increments it before testing divisibility
by log_every, runs the evaluation when the test succeeds, then always
emits the log mapping and saves the model.  The scheduler is stepped
right after the optimizer with the fractional epoch e + i / iters. -/
def batchEvents (cfg : TrainCfg) (e i nUpd : Nat) : List Ev :=
  [Ev.forwardPass e i, Ev.zeroGrad e i, Ev.backwardPass e i, Ev.optStep e i,
   Ev.schedStep ((e : ℚ) + (i : ℚ) / (cfg.iters : ℚ))] ++
  (if (nUpd + 1) % cfg.logEvery = 0 then [Ev.evalStep e i] else []) ++
  [Ev.logStep (["lr", "loss", "train_rmse"] ++
     (if (nUpd + 1) % cfg.logEvery = 0 then ["val_rmse", "test_rmse"] else [])),
   Ev.saveModel e i]

/-- The events of epoch e: the batch loop runs over the iters batches,
and n_update enters batch i of epoch e holding e * iters + i. -/
def epochEvents (cfg : TrainCfg) (e : Nat) : List Ev :=
  (List.range cfg.iters).flatMap (fun i => batchEvents cfg e i (e * cfg.iters + i))

/-- The full event trace of one run: the epoch loop over epochs. -/
def trainTrace (cfg : TrainCfg) : List Ev :=
  (List.range cfg.epochs).flatMap (fun e => epochEvents cfg e)

/-- Recognizer for scheduler-step events. -/
def isSchedEv : Ev → Bool
  | Ev.schedStep _ => true
  | _ => false

/-- Recognizer for evaluation events. -/
def isEvalEv : Ev → Bool
  | Ev.evalStep _ _ => true
  | _ => false

/-- Recognizer for checkpoint events. -/
def isSaveEv : Ev → Bool
  | Ev.saveModel _ _ => true
  | _ => false

/-- The command-line arguments the script parses and passes to main. -/
structure CliArgs where
  ds : String
  initFeat : Bool
  fgCyc : Bool
  numNeurons : List Nat
  inputNorm : String
  nefDp : ℚ
  regDp : ℚ
  device : String
deriving DecidableEq, Repr

/-- The loop constants fixed by get_config
(cleanedup_regression_node.py): 2400 epochs, log_every 50 and T_0 50.
The number of batches per epoch is len(train_dl), known only at run
time, so it stays a parameter. -/
def trainCfgOf (iters : Nat) : TrainCfg :=
  { epochs := 2400, iters := iters, logEvery := 50, T0 := 50 }

/-- The observable outcome of one call of main: the arguments it was
called with, the data files it loaded, the training events it executed
and whether it finished the run. -/
structure RunRecord where
  usedArgs : CliArgs
  files : SplitPaths
  events : List Ev
  finished : Bool
deriving DecidableEq, Repr

/-- One full execution of main for the parsed arguments: load the data
files selected by the dataset name and the two flags, run the full
training loop and finish the run. -/
def mainRun (a : CliArgs) (iters : Nat) : RunRecord :=
  { usedArgs := a
    files := graphFiles a.ds a.initFeat a.fgCyc
    events := trainTrace (trainCfgOf iters)
    finished := true }

/-- Embedding of the script entry of cleanedup_regression_node.py: the
for loop over range(3) calls main once per iteration, each time with the
same parsed arguments. -/
def scriptRuns (a : CliArgs) (iters : Nat) : List RunRecord :=
  (List.range 3).map (fun _ => mainRun a iters)

/-- A small concrete loop configuration (2 epochs of 3 batches, logging
period 2) used to exercise the trace theorems on closed inputs. -/
def smallCfg : TrainCfg :=
  { epochs := 2, iters := 3, logEvery := 2, T0 := 50 }

/-! Helper lemmas. -/

theorem zipWith_eq_map_zip {α β γ : Type} (f : α → β → γ) :
    ∀ (l : List α) (m : List β),
      List.zipWith f l m = (l.zip m).map (fun p => f p.1 p.2)
  | [], _ => by simp
  | _ :: _, [] => by simp
  | a :: l, b :: m => by
    simp [List.zipWith_cons_cons, zipWith_eq_map_zip f l m]

theorem length_weightedSumAndMax (dim : Nat) (weights : List ℚ)
    (nodes : List (List ℚ)) :
    (weightedSumAndMax dim weights nodes).length = 2 * dim := by
  simp [weightedSumAndMax, weightedSumPool, maxPool]
  omega

theorem flatMap_infix_of_mem {α β : Type} (f : α → List β) {a : α} :
    ∀ {l : List α}, a ∈ l → ∃ pre post, l.flatMap f = pre ++ f a ++ post := by
  intro l h
  induction l with
  | nil => cases h
  | cons x xs ih =>
    rcases List.mem_cons.mp h with h1 | h2
    · exact ⟨[], xs.flatMap f, by simp [h1]⟩
    · obtain ⟨p, q, hpq⟩ := ih h2
      exact ⟨f x ++ p, q, by simp [hpq]⟩

theorem countP_flatMap {α β : Type} (p : β → Bool) (f : α → List β) :
    ∀ l : List α, (l.flatMap f).countP p = (l.map (fun a => (f a).countP p)).sum := by
  intro l
  induction l with
  | nil => simp
  | cons x xs ih => simp [List.countP_append, ih]

theorem sum_map_one {α : Type} : ∀ l : List α, (l.map (fun _ => 1)).sum = l.length := by
  intro l
  induction l with
  | nil => simp
  | cons x xs ih => simp [ih]; omega

theorem sum_map_const {α : Type} (c : Nat) :
    ∀ l : List α, (l.map (fun _ => c)).sum = l.length * c := by
  intro l
  induction l with
  | nil => simp
  | cons x xs ih => simp [ih]; ring

theorem countP_batchEvents_sched (cfg : TrainCfg) (e i nUpd : Nat) :
    (batchEvents cfg e i nUpd).countP isSchedEv = 1 := by
  unfold batchEvents
  by_cases h : (nUpd + 1) % cfg.logEvery = 0 <;>
    simp [h, List.countP_append, List.countP_cons, isSchedEv]

theorem countP_epochEvents_sched (cfg : TrainCfg) (e : Nat) :
    (epochEvents cfg e).countP isSchedEv = cfg.iters := by
  unfold epochEvents
  rw [countP_flatMap]
  have h : ∀ i ∈ List.range cfg.iters,
      (batchEvents cfg e i (e * cfg.iters + i)).countP isSchedEv = (fun _ : Nat => 1) i :=
    fun i _ => countP_batchEvents_sched cfg e i (e * cfg.iters + i)
  rw [List.map_congr_left h, sum_map_one, List.length_range]

theorem countP_trainTrace_sched (cfg : TrainCfg) :
    (trainTrace cfg).countP isSchedEv = cfg.epochs * cfg.iters := by
  unfold trainTrace
  rw [countP_flatMap]
  have h : ∀ e ∈ List.range cfg.epochs,
      (epochEvents cfg e).countP isSchedEv = (fun _ : Nat => cfg.iters) e :=
    fun e _ => countP_epochEvents_sched cfg e
  rw [List.map_congr_left h, sum_map_const, List.length_range]

theorem countP_batchEvents_save (cfg : TrainCfg) (e i nUpd : Nat) :
    (batchEvents cfg e i nUpd).countP isSaveEv = 1 := by
  unfold batchEvents
  by_cases h : (nUpd + 1) % cfg.logEvery = 0 <;>
    simp [h, List.countP_append, List.countP_cons, isSaveEv]

theorem countP_epochEvents_save (cfg : TrainCfg) (e : Nat) :
    (epochEvents cfg e).countP isSaveEv = cfg.iters := by
  unfold epochEvents
  rw [countP_flatMap]
  have h : ∀ i ∈ List.range cfg.iters,
      (batchEvents cfg e i (e * cfg.iters + i)).countP isSaveEv = (fun _ : Nat => 1) i :=
    fun i _ => countP_batchEvents_save cfg e i (e * cfg.iters + i)
  rw [List.map_congr_left h, sum_map_one, List.length_range]

theorem countP_trainTrace_save (cfg : TrainCfg) :
    (trainTrace cfg).countP isSaveEv = cfg.epochs * cfg.iters := by
  unfold trainTrace
  rw [countP_flatMap]
  have h : ∀ e ∈ List.range cfg.epochs,
      (epochEvents cfg e).countP isSaveEv = (fun _ : Nat => cfg.iters) e :=
    fun e _ => countP_epochEvents_save cfg e
  rw [List.map_congr_left h, sum_map_const, List.length_range]

theorem countP_batchEvents_eval (cfg : TrainCfg) (e i nUpd : Nat) :
    (batchEvents cfg e i nUpd).countP isEvalEv =
      if (nUpd + 1) % cfg.logEvery = 0 then 1 else 0 := by
  unfold batchEvents
  by_cases h : (nUpd + 1) % cfg.logEvery = 0 <;>
    simp [h, List.countP_append, List.countP_cons, isEvalEv]

theorem succ_div_ite (n k : Nat) :
    (n + 1) / k = n / k + if (n + 1) % k = 0 then 1 else 0 := by
  rw [Nat.succ_div]
  congr 1
  by_cases h : k ∣ (n + 1)
  · simp [h, Nat.dvd_iff_mod_eq_zero.mp h]
  · have h2 : ¬ (n + 1) % k = 0 := fun hc => h (Nat.dvd_iff_mod_eq_zero.mpr hc)
    simp [h, h2]

theorem count_multiples_range (k a : Nat) :
    ∀ b : Nat,
      ((List.range b).map (fun i => if (a + i + 1) % k = 0 then 1 else 0)).sum =
        (a + b) / k - a / k := by
  intro b
  induction b with
  | zero => simp
  | succ m ih =>
    rw [List.range_succ, List.map_append, List.sum_append, ih]
    have h1 : (a + m + 1) / k = (a + m) / k + if (a + m + 1) % k = 0 then 1 else 0 :=
      succ_div_ite (a + m) k
    have h2 : a / k ≤ (a + m) / k := Nat.div_le_div_right (Nat.le_add_right a m)
    have h3 : a + (m + 1) = a + m + 1 := by omega
    rw [h3, h1]
    simp only [List.map_cons, List.map_nil, List.sum_cons, List.sum_nil]
    omega

theorem countP_epochEvents_eval (cfg : TrainCfg) (e : Nat) :
    (epochEvents cfg e).countP isEvalEv =
      (e * cfg.iters + cfg.iters) / cfg.logEvery - (e * cfg.iters) / cfg.logEvery := by
  unfold epochEvents
  rw [countP_flatMap]
  have h : ∀ i ∈ List.range cfg.iters,
      (batchEvents cfg e i (e * cfg.iters + i)).countP isEvalEv =
        (fun i => if (e * cfg.iters + i + 1) % cfg.logEvery = 0 then 1 else 0) i :=
    fun i _ => countP_batchEvents_eval cfg e i (e * cfg.iters + i)
  rw [List.map_congr_left h, count_multiples_range]

theorem countP_trainTrace_eval (cfg : TrainCfg) :
    (trainTrace cfg).countP isEvalEv = (cfg.epochs * cfg.iters) / cfg.logEvery := by
  unfold trainTrace
  rw [countP_flatMap]
  have key : ∀ m : Nat,
      ((List.range m).map (fun e => (epochEvents cfg e).countP isEvalEv)).sum =
        (m * cfg.iters) / cfg.logEvery := by
    intro m
    induction m with
    | zero => simp
    | succ n ih =>
      rw [List.range_succ, List.map_append, List.sum_append, ih]
      simp only [List.map_cons, List.map_nil, List.sum_cons, List.sum_nil]
      rw [countP_epochEvents_eval]
      have h2 : (n * cfg.iters) / cfg.logEvery ≤
          (n * cfg.iters + cfg.iters) / cfg.logEvery :=
        Nat.div_le_div_right (Nat.le_add_right _ _)
      have h3 : (n + 1) * cfg.iters = n * cfg.iters + cfg.iters := by ring
      rw [h3]
      omega
  exact key cfg.epochs

theorem trainTrace_batch_infix (cfg : TrainCfg) {e i : Nat}
    (he : e < cfg.epochs) (hi : i < cfg.iters) :
    ∃ pre post, trainTrace cfg =
      pre ++ batchEvents cfg e i (e * cfg.iters + i) ++ post := by
  obtain ⟨p1, q1, h1⟩ := flatMap_infix_of_mem (fun a => epochEvents cfg a)
    (List.mem_range.mpr he)
  obtain ⟨p2, q2, h2⟩ := flatMap_infix_of_mem
    (fun b => batchEvents cfg e b (e * cfg.iters + b)) (List.mem_range.mpr hi)
  refine ⟨p1 ++ p2, q2 ++ q1, ?_⟩
  show (List.range cfg.epochs).flatMap (fun a => epochEvents cfg a) = _
  rw [h1]
  have h3 : epochEvents cfg e =
      p2 ++ batchEvents cfg e i (e * cfg.iters + i) ++ q2 := h2
  rw [h3]
  simp [List.append_assoc]

/-! Claim theorems. -/

/-- C1 counterexample: the functional-group attention network fam does
not have output dimension 1.  At the concrete constructor parameters
below (fg_hidden_dim = 2) its output dimension is 2. -/
theorem fam_gate_not_scalar :
    ¬ ((Net.build
        { outDim := 1, nodeInDim := 100, edgeInDim := 7, fgInDim := 100,
          numNeurons := [128, 64], inputNorm := "batch", nefDp := 0,
          regDp := 0, nodeHiddenDim := 3, edgeHiddenDim := 4,
          fgHiddenDim := 2, activation := Activation.LeakyReLU }).fam.outDim = 1) := by
  decide

/-- C1 (amended): the functional-group attention network fam computes,
per membership edge, a gate of dimension fg_hidden_dim (a vector gate,
not a scalar), from an input of dimension 2 * (node_hidden_dim +
fg_hidden_dim), with identity activation (no hidden nonlinearity). -/
theorem fam_gate_dims (p : NetParams) :
    (Net.build p).fam.outDim = p.fgHiddenDim ∧
    (Net.build p).fam.hiddenAct = Activation.Identity ∧
    (Net.build p).fam.inDim = 2 * (p.nodeHiddenDim + p.fgHiddenDim) := by
  refine ⟨rfl, rfl, rfl⟩

/-- C2: the loss used for the backward pass equals the mean over all
elements of the raw per-element squared error between the predictions
and the labels. -/
theorem trainLoss_eq_rawSquaredErrorMean (logits labels : List (List ℚ)) :
    trainLoss logits labels = rawSquaredErrorMean logits labels := by
  unfold trainLoss rawSquaredErrorMean tensorMean mseLossNone
  rw [zipWith_eq_map_zip]
  have hrow : ∀ p : List ℚ × List ℚ,
      List.zipWith (fun a b => (a - b) * (a - b)) p.1 p.2 =
        (p.1.zip p.2).map (fun q => (q.1 - q.2) * (q.1 - q.2)) := by
    intro p; exact zipWith_eq_map_zip _ p.1 p.2
  simp only [hrow, List.sum_flatten, List.length_flatten, List.map_map]

/-- C3: for every epoch e and batch index i, the scheduler is advanced
once per batch with the fractional epoch value e + i / iters: the trace
contains, for this batch, the scheduler step immediately after the
optimizer step carrying exactly that argument, and the total number of
scheduler steps in the run equals the total number of batches. -/
theorem scheduler_step_per_batch (cfg : TrainCfg) (e i : Nat)
    (he : e < cfg.epochs) (hi : i < cfg.iters) :
    (∃ pre post, trainTrace cfg =
      pre ++ Ev.optStep e i ::
        Ev.schedStep ((e : ℚ) + (i : ℚ) / (cfg.iters : ℚ)) :: post) ∧
    (trainTrace cfg).countP isSchedEv = cfg.epochs * cfg.iters := by
  refine ⟨?_, countP_trainTrace_sched cfg⟩
  obtain ⟨p, q, hp⟩ := trainTrace_batch_infix cfg he hi
  refine ⟨p ++ [Ev.forwardPass e i, Ev.zeroGrad e i, Ev.backwardPass e i],
    ((if (e * cfg.iters + i + 1) % cfg.logEvery = 0 then [Ev.evalStep e i] else []) ++
     [Ev.logStep (["lr", "loss", "train_rmse"] ++
        (if (e * cfg.iters + i + 1) % cfg.logEvery = 0 then ["val_rmse", "test_rmse"]
         else [])),
      Ev.saveModel e i]) ++ q, ?_⟩
  rw [hp]
  simp [batchEvents, List.append_assoc]

/-- C3 witness: the scheduler claim applied to the small configuration
at epoch 1, batch 2. -/
theorem scheduler_step_per_batch_witness :
    1 < smallCfg.epochs ∧ 2 < smallCfg.iters ∧
    ((∃ pre post, trainTrace smallCfg =
        pre ++ Ev.optStep 1 2 ::
          Ev.schedStep (((1 : Nat) : ℚ) + ((2 : Nat) : ℚ) / (smallCfg.iters : ℚ)) :: post) ∧
      (trainTrace smallCfg).countP isSchedEv = smallCfg.epochs * smallCfg.iters) :=
  ⟨by decide, by decide, scheduler_step_per_batch smallCfg 1 2 (by decide) (by decide)⟩

/-- C4: every batch emits a log mapping whose keys start with lr, loss
and train_rmse; exactly when the global step counter e * iters + i + 1
is a multiple of log_every, the evaluation step runs immediately before
that log emission and the same log additionally carries val_rmse and
test_rmse; within the batch the number of evaluation events is one on
such steps and zero otherwise, and over the whole run the number of
evaluation events is the number of multiples of log_every among the
global steps. -/
theorem eval_on_log_multiples (cfg : TrainCfg) (e i : Nat)
    (he : e < cfg.epochs) (hi : i < cfg.iters) :
    (∃ pre post, trainTrace cfg =
      pre ++
        (if (e * cfg.iters + i + 1) % cfg.logEvery = 0 then [Ev.evalStep e i] else []) ++
        Ev.logStep (["lr", "loss", "train_rmse"] ++
          (if (e * cfg.iters + i + 1) % cfg.logEvery = 0 then ["val_rmse", "test_rmse"]
           else [])) ::
        Ev.saveModel e i :: post) ∧
    (batchEvents cfg e i (e * cfg.iters + i)).countP isEvalEv =
      (if (e * cfg.iters + i + 1) % cfg.logEvery = 0 then 1 else 0) ∧
    (trainTrace cfg).countP isEvalEv = cfg.epochs * cfg.iters / cfg.logEvery := by
  refine ⟨?_, countP_batchEvents_eval cfg e i _, countP_trainTrace_eval cfg⟩
  obtain ⟨p, q, hp⟩ := trainTrace_batch_infix cfg he hi
  refine ⟨p ++ [Ev.forwardPass e i, Ev.zeroGrad e i, Ev.backwardPass e i, Ev.optStep e i,
    Ev.schedStep ((e : ℚ) + (i : ℚ) / (cfg.iters : ℚ))], q, ?_⟩
  rw [hp]
  simp [batchEvents, List.append_assoc]

/-- C4 witness: the evaluation claim applied to the small configuration
at epoch 0, batch 1, whose global step 2 is a multiple of the logging
period 2. -/
theorem eval_on_log_multiples_witness :
    0 < smallCfg.epochs ∧ 1 < smallCfg.iters ∧
    ((∃ pre post, trainTrace smallCfg =
        pre ++
          (if (0 * smallCfg.iters + 1 + 1) % smallCfg.logEvery = 0
           then [Ev.evalStep 0 1] else []) ++
          Ev.logStep (["lr", "loss", "train_rmse"] ++
            (if (0 * smallCfg.iters + 1 + 1) % smallCfg.logEvery = 0
             then ["val_rmse", "test_rmse"] else [])) ::
          Ev.saveModel 0 1 :: post) ∧
      (batchEvents smallCfg 0 1 (0 * smallCfg.iters + 1)).countP isEvalEv =
        (if (0 * smallCfg.iters + 1 + 1) % smallCfg.logEvery = 0 then 1 else 0) ∧
      (trainTrace smallCfg).countP isEvalEv =
        smallCfg.epochs * smallCfg.iters / smallCfg.logEvery) :=
  ⟨by decide, by decide, eval_on_log_multiples smallCfg 0 1 (by decide) (by decide)⟩

/-- C5: a checkpoint of the model state is persisted after every single
training batch: every epoch and batch contributes a save event to the
trace, and the total number of save events equals the total number of
batches of the run. -/
theorem checkpoint_every_batch (cfg : TrainCfg) (e i : Nat)
    (he : e < cfg.epochs) (hi : i < cfg.iters) :
    Ev.saveModel e i ∈ trainTrace cfg ∧
    (trainTrace cfg).countP isSaveEv = cfg.epochs * cfg.iters := by
  refine ⟨?_, countP_trainTrace_save cfg⟩
  obtain ⟨p, q, hp⟩ := trainTrace_batch_infix cfg he hi
  rw [hp]
  have hmem : Ev.saveModel e i ∈ batchEvents cfg e i (e * cfg.iters + i) := by
    by_cases h : (e * cfg.iters + i + 1) % cfg.logEvery = 0 <;> simp [batchEvents, h]
  simp [hmem]

/-- C5 witness: the checkpoint claim applied to the small configuration
at epoch 1, batch 0. -/
theorem checkpoint_every_batch_witness :
    1 < smallCfg.epochs ∧ 0 < smallCfg.iters ∧
    (Ev.saveModel 1 0 ∈ trainTrace smallCfg ∧
      (trainTrace smallCfg).countP isSaveEv = smallCfg.epochs * smallCfg.iters) :=
  ⟨by decide, by decide, checkpoint_every_batch smallCfg 1 0 (by decide) (by decide)⟩

/-- C6: for every dataset name and every combination of the init_feat
and fg_cyc flags, the loader reads the train, validation and test graphs
from exactly the four pre-generated file variants the specification
describes, keyed by the two flags. -/
theorem graphFiles_variants (ds : String) :
    graphFiles ds true true =
      { trainFile := "data/" ++ ds ++ "_train.bin",
        valFile := "data/" ++ ds ++ "_val.bin",
        testFile := "data/" ++ ds ++ "_test.bin" } ∧
    graphFiles ds false true =
      { trainFile := "data/noinit_" ++ ds ++ "_train.bin",
        valFile := "data/noinit_" ++ ds ++ "_val.bin",
        testFile := "data/noinit_" ++ ds ++ "_test.bin" } ∧
    graphFiles ds true false =
      { trainFile := "data_nocyc/nocyc_" ++ ds ++ "_train.bin",
        valFile := "data_nocyc/nocyc_" ++ ds ++ "_val.bin",
        testFile := "data_nocyc/nocyc_" ++ ds ++ "_test.bin" } ∧
    graphFiles ds false false =
      { trainFile := "data_nocyc/nocyc_noinit_" ++ ds ++ "_train.bin",
        valFile := "data_nocyc/nocyc_noinit_" ++ ds ++ "_val.bin",
        testFile := "data_nocyc/nocyc_noinit_" ++ ds ++ "_test.bin" } := by
  refine ⟨rfl, rfl, rfl, rfl⟩

/-- C7: the regressor input is the concatenation of the atom readout and
the functional-group readout, each itself the concatenation of a
weighted-sum vector and an elementwise-max vector; its length therefore
always equals the declared regressor input dimension
2 * (node_hidden_dim + fg_hidden_dim). -/
theorem readoutVec_length_eq_reg_inDim (p : NetParams)
    (atomWeights fgWeights : List ℚ) (atomEmb fgEmb : List (List ℚ)) :
    (Net.readoutVec p atomWeights fgWeights atomEmb fgEmb).length =
      (Net.build p).reg.inDim := by
  show (Net.readoutVec p atomWeights fgWeights atomEmb fgEmb).length =
    2 * (p.nodeHiddenDim + p.fgHiddenDim)
  unfold Net.readoutVec
  rw [List.length_append, length_weightedSumAndMax, length_weightedSumAndMax]
  omega

/-- C8: the atom to atom gating network am computes a single scalar gate
(output dimension 1) from an input of dimension 2 * node_hidden_dim +
edge_hidden_dim, the same input dimension as the edge update network em,
with identity activation (no hidden nonlinearity). -/
theorem am_gate_scalar (p : NetParams) :
    (Net.build p).am.outDim = 1 ∧
    (Net.build p).am.hiddenAct = Activation.Identity ∧
    (Net.build p).am.inDim = 2 * p.nodeHiddenDim + p.edgeHiddenDim ∧
    (Net.build p).am.inDim = (Net.build p).em.inDim := by
  refine ⟨rfl, rfl, ?_, rfl⟩
  show p.nodeHiddenDim * 2 + p.edgeHiddenDim = 2 * p.nodeHiddenDim + p.edgeHiddenDim
  omega

/-- C9: Net.forward leaves the stored node and edge feature data of the
input graph unchanged; the writes of the updated embeddings under the
key h happen inside the local scope and are not observable on the graph
afterwards. -/
theorem forward_preserves_graph
    (nodeEnc edgeEnc fgEnc : List (List ℚ) → List (List ℚ))
    (gnn : HGraph → List (List ℚ) → List (List ℚ) → List (List ℚ) →
      List (List ℚ) × List (List ℚ) × List (List ℚ))
    (nodeReadout fgReadout : HGraph → List (List ℚ) → List ℚ)
    (reg : List ℚ → List ℚ)
    (g : HGraph) (nf ef ff : List (List ℚ)) :
    (Net.forward nodeEnc edgeEnc fgEnc gnn nodeReadout fgReadout reg g nf ef ff).1 = g := by
  rfl

/-- C10: invoked as a script, the program executes the full pipeline
exactly three times sequentially, each run with the identical parsed
command-line arguments, the identical data files, the full training
trace and a finished run. -/
theorem script_repeats_main_three_times (a : CliArgs) (iters : Nat) :
    scriptRuns a iters = [mainRun a iters, mainRun a iters, mainRun a iters] ∧
    (scriptRuns a iters).length = 3 ∧
    (∀ r ∈ scriptRuns a iters, r = mainRun a iters) ∧
    (mainRun a iters).usedArgs = a ∧
    (mainRun a iters).files = graphFiles a.ds a.initFeat a.fgCyc ∧
    (mainRun a iters).events = trainTrace (trainCfgOf iters) ∧
    (mainRun a iters).finished = true := by
  have h : scriptRuns a iters = [mainRun a iters, mainRun a iters, mainRun a iters] := rfl
  refine ⟨h, by rw [h]; rfl, ?_, by simp only [mainRun], by simp only [mainRun],
    by simp only [mainRun], by simp only [mainRun]⟩
  intro r hr
  rw [h] at hr
  rcases List.mem_cons.mp hr with h1 | hr
  · exact h1
  rcases List.mem_cons.mp hr with h1 | hr
  · exact h1
  rcases List.mem_cons.mp hr with h1 | hr
  · exact h1
  · cases hr

end MolHGCN
